import Mathlib

/-!
Verification of the job-scraper text pipeline.

Shallow embedding of the pure text-processing core of the repository
(main.py and locations.py): the location classifier, the salary
extractor, the keyword extractor, the preference scorer and the
company-size parser, together with proofs of the claimed properties.

Python string semantics are modelled on ASCII data (lowercasing,
character classes); every input appearing in the claims is ASCII.
-/

namespace JobScraper

/-! ## Character classes (ASCII models of the Python string primitives) -/

/-- ASCII uppercase letter test. -/
def isAsciiUpper (c : Char) : Bool :=
  65 ≤ c.toNat && c.toNat ≤ 90

/-- ASCII model of Python str.lower applied to one character. -/
def toLowerChar (c : Char) : Char :=
  if isAsciiUpper c then Char.ofNat (c.toNat + 32) else c

/-- ASCII model of Python str.lower. -/
def toLowerStr (s : String) : String :=
  String.mk (s.data.map toLowerChar)

/-- ASCII alphabetic character, the regex class of letters a-z and A-Z. -/
def isAsciiAlpha (c : Char) : Bool :=
  (97 ≤ c.toNat && c.toNat ≤ 122) || (65 ≤ c.toNat && c.toNat ≤ 90)

/-- ASCII decimal digit, the regex class backslash-d on ASCII data. -/
def isAsciiDigit (c : Char) : Bool :=
  48 ≤ c.toNat && c.toNat ≤ 57

/-- Numeric value of an ASCII digit. -/
def digitVal (c : Char) : Nat := c.toNat - 48

/-- Regex word character (class backslash-w restricted to ASCII):
letters, digits and the underscore. -/
def isWordChar (c : Char) : Bool :=
  isAsciiAlpha c || isAsciiDigit c || c = '_'

/-- ASCII whitespace recognised by Python str.strip and by the regex
class backslash-s: space, tab, newline, carriage return, vertical tab
and form feed. -/
def isPySpace (c : Char) : Bool :=
  c = ' ' || c = '\t' || c = '\n' || c = '\r' ||
    c.toNat = 11 || c.toNat = 12

/-! ## locations.py: the locale lexicons -/

/-- The allow list of locations.py (allow_locales). -/
def allow_locales : List String :=
  ["remote", "united states", "us", "americas", "silicon valley",
   "san francisco", "bay area", "new york city", "nyc", "los angeles"]

/-- The place-name list of locations.py (states_and_cities).  It is
defined in the source module but never imported by main.py. -/
def states_and_cities : List String :=
  ["ak", "al", "alabama", "alaska", "ann arbor", "atlanta", "austin",
   "boston", "boulder", "ca", "california", "charlotte", "chicago",
   "cleveland", "co", "colorado", "columbus", "connecticut", "ct", "dallas",
   "dc", "de", "dearborn", "delaware", "denver", "detroit", "durham",
   "farmington", "fl", "florida", "ga", "georgia", "houston", "ia", "il",
   "illinois", "in", "indiana", "indianapolis", "iowa", "kansas", "kentucky",
   "ks", "ky", "la", "las vegas", "los angeles", "louisiana", "ma", "madison",
   "maine", "maryland", "massachusetts", "md", "me", "mi", "michigan",
   "milwaukee", "minneapolis", "minnesota", "mississippi", "missouri", "mn",
   "mo", "montana", "ms", "mt", "nashville", "nc", "ne", "nebraska",
   "nevada", "new hampshire", "new jersey", "new mexico", "new york", "nh",
   "nj", "nm", "north carolina", "nv", "ny", "nyc", "oh", "ohio", "ok",
   "oklahoma", "or", "oregon", "pa", "pennsylvania", "philadelphia", "phoenix",
   "pittsburgh", "portland", "raleigh", "rhode island", "ri", "royal oak",
   "saint paul", "salt lake city", "san diego", "san francisco", "sc",
   "seattle", "south carolina", "southfield", "tennessee", "texas", "tn",
   "troy", "tx", "ut", "utah", "va", "vermont", "virginia", "vt", "wa",
   "washington", "west virginia", "wi", "wisconsin", "wv", "wy", "wyoming"]

/-- The deny list of locations.py (exclude_locales), kept verbatim,
including the duplicated entry for the United Kingdom abbreviation. -/
def exclude_locales : List String :=
  ["canada", "latam", "europe", "mexico", "germany", "uk", "apac", "london",
   "argentina", "brazil", "ireland", "united kingdom", "uk", "spain", "italy",
   "poland", "czech republic", "bulgaria", "netherlands", "slovakia",
   "hungary", "casablanca", "morocco", "india", "warsaw", "paris", "chile",
   "colombia", "france", "sweden", "lisbon", "portugal"]

/-! ## main.py in_usa: the location classifier -/

/-- The delimiter set of in_usa: comma, slash, hyphen, parentheses,
ampersand, semicolon and space, as in the re.split pattern. -/
def isDelim (c : Char) : Bool :=
  c = ',' || c = '/' || c = '-' || c = '(' || c = ')' ||
    c = '&' || c = ';' || c = ' '

/-- Splitting on the delimiter set, keeping empty fields, exactly as
re.split does with an alternation of single-character delimiters. -/
def splitDelimsAux (cur : List Char) (cs : List Char) : List (List Char) :=
  match cs with
  | [] => [cur.reverse]
  | c :: rest =>
    if isDelim c then cur.reverse :: splitDelimsAux [] rest
    else splitDelimsAux (c :: cur) rest

/-- Python str.strip: remove leading and trailing whitespace. -/
def pyStrip (cs : List Char) : List Char :=
  ((cs.dropWhile isPySpace).reverse.dropWhile isPySpace).reverse

/-- The token list in_usa iterates over: lowercase the location, split
on the delimiters, strip each field. -/
def locationWords (location : String) : List String :=
  (splitDelimsAux [] (toLowerStr location).data).map
    (fun w => String.mk (pyStrip w))

/-- main.py in_usa: return true as soon as some token is in
allow_locales; otherwise return false as soon as some token is in
exclude_locales; otherwise default to true.  The two sequential loops
of the source are equivalent to this pair of any-tests because the
first loop runs to completion before the second starts. -/
def in_usa (location : String) : Bool :=
  let words := locationWords location
  if words.any (fun w => decide (w ∈ allow_locales)) then true
  else if words.any (fun w => decide (w ∈ exclude_locales)) then false
  else true

/-! ## main.py extract_salary: the salary extractor

The source uses two regexes, both case-insensitive:

  range:  (salary|range)[^$]* dollar s? (d{1,3}(,d{3})*) [^$]*? dollar s? (d{1,3}(,d{3})*)
  single: (salary|range)[^$]* dollar s? (d{1,3}(,d{3})*)

where dollar is the dollar sign, s is a whitespace character and d a
digit.  The search semantics unfold deterministically: the class
excluding the dollar sign can never cross a dollar sign, so after a
label the engine commits to the first dollar sign that follows, and a
greedy digit group never needs to give characters back because the
continuation accepts any non-dollar character.  A failed attempt at a
label position restarts the scan one character further right. -/

/-- Drop characters up to and including the first dollar sign, the
effect of the class excluding dollar followed by a literal dollar. -/
def findDollar : List Char → Option (List Char)
  | [] => none
  | c :: rest => if c = '$' then some rest else findDollar rest

/-- The comma groups of the amount regex: repeatedly consume a comma
followed by exactly three digits, extending the accumulated value. -/
def parseGroups (acc : Nat) (cs : List Char) : Nat × List Char :=
  match cs with
  | ',' :: d1 :: d2 :: d3 :: rest =>
    if isAsciiDigit d1 && isAsciiDigit d2 && isAsciiDigit d3 then
      parseGroups (((acc * 10 + digitVal d1) * 10 + digitVal d2) * 10
        + digitVal d3) rest
    else (acc, cs)
  | _ => (acc, cs)

/-- The amount part of both salary regexes, applied right after a
dollar sign: one optional whitespace character, one to three digits
taken greedily, then comma groups.  Returns the value with grouping
commas stripped, and the rest of the input. -/
def parseAmount (cs0 : List Char) : Option (Nat × List Char) :=
  let cs := match cs0 with
    | c :: rest => if isPySpace c then rest else cs0
    | [] => cs0
  let run := cs.takeWhile isAsciiDigit
  if run.isEmpty then none
  else
    let g := run.take 3
    let v := g.foldl (fun n d => n * 10 + digitVal d) 0
    some (parseGroups v (cs.drop g.length))

/-- Case-insensitive match of the label alternation: the word salary,
or else the word range, at the current position. -/
def matchLabel (cs : List Char) : Option (List Char) :=
  if (cs.take 6).map toLowerChar = "salary".data then some (cs.drop 6)
  else if (cs.take 5).map toLowerChar = "range".data then some (cs.drop 5)
  else none

/-- The part of the range regex after the label: first dollar amount,
then the next dollar amount. -/
def attemptRange (cs : List Char) : Option (Nat × Nat) :=
  match findDollar cs with
  | none => none
  | some r1 =>
    match parseAmount r1 with
    | none => none
    | some (a1, r2) =>
      match findDollar r2 with
      | none => none
      | some r3 =>
        match parseAmount r3 with
        | none => none
        | some (a2, _) => some (a1, a2)

/-- The part of the single regex after the label: one dollar amount. -/
def attemptSingle (cs : List Char) : Option Nat :=
  match findDollar cs with
  | none => none
  | some r1 =>
    match parseAmount r1 with
    | none => none
    | some (a1, _) => some a1

/-- Leftmost search for the range regex: at each position try the
label and, if it matches, the two amounts; on failure resume one
character further. -/
def rangeSearch : List Char → Option (Nat × Nat)
  | [] => none
  | c :: rest =>
    match matchLabel (c :: rest) with
    | some after =>
      match attemptRange after with
      | some r => some r
      | none => rangeSearch rest
    | none => rangeSearch rest

/-- Leftmost search for the single-amount regex. -/
def singleSearch : List Char → Option Nat
  | [] => none
  | c :: rest =>
    match matchLabel (c :: rest) with
    | some after =>
      match attemptSingle after with
      | some r => some r
      | none => singleSearch rest
    | none => singleSearch rest

/-- main.py extract_salary: try the range pattern first and return both
amounts; otherwise try the single pattern and return one amount;
otherwise return no amounts. -/
def extract_salary (description : String) : Option Nat × Option Nat :=
  match rangeSearch description.data with
  | some (mn, mx) => (some mn, some mx)
  | none =>
    match singleSearch description.data with
    | some mn => (some mn, none)
    | none => (none, none)

/-! ## main.py score_job: the preference scorer -/

/-- The preference table of main.py, in declaration order. -/
def preferences : List (String × Int) :=
  [("Remote", 10), ("Python", 10), ("Machine Learning", 8), ("Backend", 8),
   ("Linux", 9), ("Golang", 6), ("Go", 6), ("Java", -10), ("Haskell", -8),
   ("iOS", -7), ("Hybrid", -10), ("On-site", -10)]

/-- Word-character test of the character at a position, false past the
ends of the text. -/
def wordAtB (t : List Char) (i : Nat) : Bool :=
  match t.drop i with
  | c :: _ => isWordChar c
  | [] => false

/-- The regex word boundary at a position: the word-character status
of the characters on the two sides differs (positions outside the
text count as non-word). -/
def boundaryB (t : List Char) (p : Nat) : Bool :=
  (if p = 0 then false else wordAtB t (p - 1)) != wordAtB t p

/-- The text slice of the length of the pattern starting at a
position equals the pattern. -/
def sliceEq (t : List Char) (i : Nat) (kw : List Char) : Bool :=
  (t.drop i).take kw.length = kw

/-- Search for the escaped keyword delimited by word boundaries on
both sides, the regex used by score_job; both sides are expected
already lowercased, which models the case-insensitive flag. -/
def hasWordMatch (kw : List Char) (t : List Char) : Bool :=
  (List.range (t.length + 1)).any fun i =>
    sliceEq t i kw && boundaryB t i && boundaryB t (i + kw.length)

/-- Whether a preference phrase scores against a title and a
description: a word-boundary match in either, case-insensitively. -/
def prefMatches (kw : String) (title description : String) : Bool :=
  hasWordMatch (toLowerStr kw).data (toLowerStr title).data ||
    hasWordMatch (toLowerStr kw).data (toLowerStr description).data

/-- main.py score_job: fold over the preference table, adding the
weight and appending the phrase to the hit list whenever the phrase
matches the titles or the description. -/
def score_job (title description : String) : Int × List String :=
  preferences.foldl
    (fun acc kv =>
      if prefMatches kv.1 title description then
        (acc.1 + kv.2, acc.2 ++ [kv.1])
      else acc)
    (0, [])

/-! ## main.py extract_keywords: the keyword extractor

The token regex is: word boundary, three or more ASCII letters, word
boundary, scanned with findall.  Because every letter is a word
character, a match can only start where the previous character is not
a word character (or at the start), must cover a whole maximal run of
letters, and requires the character after the run to be a non-word
character (or the end).  The scan below carries exactly that state:
whether the position left of the current letter run is eligible. -/

/-- The findall scan for the token regex.  prevOk records whether the
character just before the current letter run was a non-word character
or the start of the text; cur accumulates the current run reversed. -/
def findallAux (prevOk : Bool) (cur : List Char) (cs : List Char) :
    List (List Char) :=
  match cs with
  | [] => if prevOk && decide (3 ≤ cur.length) then [cur.reverse] else []
  | c :: rest =>
    if isAsciiAlpha c then findallAux prevOk (c :: cur) rest
    else
      let nextOk := !isWordChar c
      let tl := findallAux nextOk [] rest
      if prevOk && decide (3 ≤ cur.length) && nextOk then
        cur.reverse :: tl
      else tl

/-- The token list of extract_keywords, in textual order. -/
def findallWords (cs : List Char) : List (List Char) :=
  findallAux true [] cs

/-- The keyword-dictionary build of extract_keywords: keep a token if
its lowercase form is not in the reference dictionary and no earlier
kept token has the same lowercase form; the first occurrence fixes the
displayed casing. -/
def keywordList (dict : List String) (ws : List String) : List String :=
  ws.foldl
    (fun acc w =>
      let lw := toLowerStr w
      if lw ∈ dict ∨ lw ∈ acc.map toLowerStr then acc else acc ++ [w])
    []

/-- The sort key order of extract_keywords: compare lowercase forms. -/
def lowerLe (a b : String) : Prop := toLowerStr a ≤ toLowerStr b

instance : DecidableRel lowerLe := fun a b =>
  inferInstanceAs (Decidable (toLowerStr a ≤ toLowerStr b))

/-- main.py extract_keywords, parameterised by the reference
dictionary (loaded from an external words file at process start):
find the tokens, filter and deduplicate, sort by lowercase form. -/
def extract_keywords (dict : List String) (text : String) : List String :=
  List.insertionSort lowerLe
    (keywordList dict ((findallWords text.data).map (fun l => String.mk l)))

/-! ## main.py parse_company_size

The source anchors this regex at the start of the text (re.match):

  (d+)(K?) s* to s* (d+)(K?) space Employees

with d a digit, s a whitespace character, and trailing text allowed.
A K suffix multiplies the number by one thousand.  When the regex does
not match, a text containing the word Employees and a plus sign has
the space-Employees suffix removed and every K replaced by three
zeros; any other text is returned unchanged. -/

/-- Greedy nonempty digit run with its value. -/
def parseDigits (cs : List Char) : Option (Nat × List Char) :=
  let run := cs.takeWhile isAsciiDigit
  if run.isEmpty then none
  else some (run.foldl (fun n d => n * 10 + digitVal d) 0, cs.drop run.length)

/-- Strip a literal from the front of the input or fail. -/
def stripLit (lit : List Char) (cs : List Char) : Option (List Char) :=
  if lit.isPrefixOf cs then some (cs.drop lit.length) else none

/-- The separator of the size regex: optional whitespace, the word to,
optional whitespace. -/
def toSep (cs : List Char) : Option (List Char) :=
  (stripLit ['t', 'o'] (cs.dropWhile isPySpace)).map
    (fun r => r.dropWhile isPySpace)

/-- The second half of the size regex after the separator: a number,
an optional K suffix tried greedily first, then the literal
space-Employees. -/
def matchSizeEnd (cs : List Char) : Option Nat :=
  match parseDigits cs with
  | none => none
  | some (d2, r2) =>
    let fin := fun (v : Nat) (r : List Char) =>
      (stripLit " Employees".data r).map (fun _ => v)
    match r2 with
    | 'K' :: r2k => (fin (d2 * 1000) r2k).orElse (fun _ => fin d2 r2)
    | _ => fin d2 r2

/-- The anchored match of the size-range regex, giving both expanded
endpoint values. -/
def matchSizeRange (cs : List Char) : Option (Nat × Nat) :=
  match parseDigits cs with
  | none => none
  | some (d1, r1) =>
    let step2 := fun (v : Nat) (r : List Char) =>
      match toSep r with
      | none => none
      | some rsep => (matchSizeEnd rsep).map (fun v2 => (v, v2))
    match r1 with
    | 'K' :: r1k => (step2 (d1 * 1000) r1k).orElse (fun _ => step2 d1 r1)
    | _ => step2 d1 r1

/-- Substring occurrence test, the Python in operator on strings. -/
def containsSub (needle : List Char) : List Char → Bool
  | [] => needle.isPrefixOf []
  | c :: rest => needle.isPrefixOf (c :: rest) || containsSub needle rest

/-- Python str.replace with fuel: replace every non-overlapping
occurrence of the needle, scanning left to right.  The fuel is the
length of the text, enough because every step consumes at least one
character when the needle is nonempty, as at both call sites. -/
def replaceSubF : Nat → List Char → List Char → List Char → List Char
  | 0, _, _, cs => cs
  | fuel + 1, n, r, cs =>
    match cs with
    | [] => []
    | c :: rest =>
      if n.isPrefixOf (c :: rest) then
        r ++ replaceSubF fuel n r (List.drop n.length (c :: rest))
      else c :: replaceSubF fuel n r rest

/-- Python str.replace for nonempty needles. -/
def replaceSub (n r cs : List Char) : List Char :=
  replaceSubF cs.length n r cs

/-- main.py parse_company_size.  The except branch of the source is
unreachable in this model because no parsing step raises. -/
def parse_company_size (companySizeText : String) : String :=
  match matchSizeRange companySizeText.data with
  | some (a, b) => String.mk (Nat.repr a).data ++ "-" ++ String.mk (Nat.repr b).data
  | none =>
    if containsSub "Employees".data companySizeText.data &&
        containsSub "+".data companySizeText.data then
      String.mk (replaceSub "K".data "000".data
        (replaceSub " Employees".data [] companySizeText.data))
    else companySizeText

/-! ## Spec-side keyword definitions

Two definitions written from the words of the keyword-extraction
claim, to be compared with the extractor embedded from the source.
Both are fuelled so that they compute inside the kernel; the fuel is
the text length, enough because every step consumes at least one
character. -/

/-- Modelled from the claim text: the maximal runs of three or more
ASCII alphabetic characters, in textual order, with no condition on
the surrounding characters. -/
def alphaRunsOrigF : Nat → List Char → List (List Char)
  | 0, _ => []
  | _ + 1, [] => []
  | fuel + 1, c :: rest =>
    if isAsciiAlpha c then
      let run := (c :: rest).takeWhile isAsciiAlpha
      let rest2 := (c :: rest).dropWhile isAsciiAlpha
      (if 3 ≤ run.length then [run] else []) ++ alphaRunsOrigF fuel rest2
    else alphaRunsOrigF fuel rest

/-- The maximal alphabetic runs of length at least three of a text. -/
def alphaRunsOrig (cs : List Char) : List (List Char) :=
  alphaRunsOrigF cs.length cs

/-- The keyword extractor the claim describes: maximal alphabetic runs
of three or more letters, filtered by the dictionary, deduplicated and
sorted as in the source. -/
def keywordsSpecOrig (dict : List String) (text : String) : List String :=
  List.insertionSort lowerLe
    (keywordList dict ((alphaRunsOrig text.data).map (fun l => String.mk l)))

/-- The right flank condition of a token match: the character after
the run is missing or is not a word character. -/
def rightOk : List Char → Bool
  | [] => true
  | c :: _ => !isWordChar c

/-- The amended run extraction: the maximal runs of three or more
ASCII alphabetic characters whose neighbouring characters on both
sides are absent or non-word (so runs flanked by digits or
underscores are dropped).  prevOk carries the left flank condition. -/
def wordRunsF : Nat → Bool → List Char → List (List Char)
  | 0, _, _ => []
  | _ + 1, _, [] => []
  | fuel + 1, prevOk, c :: rest =>
    if isAsciiAlpha c then
      let run := (c :: rest).takeWhile isAsciiAlpha
      let rest2 := (c :: rest).dropWhile isAsciiAlpha
      (if prevOk && decide (3 ≤ run.length) && rightOk rest2 then [run]
       else []) ++ wordRunsF fuel false rest2
    else wordRunsF fuel (!isWordChar c) rest

/-- The keyword extractor of the amended claim: word-boundary-flanked
maximal alphabetic runs of three or more letters, filtered by the
dictionary, deduplicated and sorted. -/
def keywordsSpecAmended (dict : List String) (text : String) : List String :=
  List.insertionSort lowerLe
    (keywordList dict
      ((wordRunsF text.data.length true text.data).map (fun l => String.mk l)))

/-! ## Helper lemmas -/

/-- Folding the scoring step over a table appends the matching phrases
and adds their weights, starting from any accumulator. -/
theorem scoreFold_eq (p : String × Int → Bool) (l : List (String × Int)) :
    ∀ (s : Int) (h : List String),
      l.foldl
        (fun acc kv => if p kv then (acc.1 + kv.2, acc.2 ++ [kv.1]) else acc)
        (s, h) =
      (s + ((l.filter p).map Prod.snd).sum,
       h ++ (l.filter p).map Prod.fst) := by
  induction l with
  | nil => intro s h; simp
  | cons kv tl ih =>
    intro s h
    cases hp : p kv with
    | false => simp [List.filter_cons, hp, ih]
    | true => simp [List.filter_cons, hp, ih, add_assoc]

/-- The empty text has no token runs, whatever the fuel. -/
theorem wordRunsF_nil (f : Nat) (p : Bool) : wordRunsF f p [] = [] := by
  cases f <;> rfl

/-- Dropping a prefix cannot lengthen a list. -/
theorem lengthDropWhileLe (p : Char → Bool) (l : List Char) :
    (l.dropWhile p).length ≤ l.length := by
  induction l with
  | nil => simp
  | cons c rest ih =>
    by_cases hc : p c = true
    · rw [List.dropWhile_cons_of_pos hc]
      exact le_trans ih (by simp)
    · rw [List.dropWhile_cons_of_neg hc]

/-- The head surviving a dropWhile fails the predicate. -/
theorem dropWhileHeadFalse (p : Char → Bool) (l : List Char) (x : Char)
    (xs : List Char) (h : l.dropWhile p = x :: xs) : p x = false := by
  induction l with
  | nil => simp [List.dropWhile] at h
  | cons c rest ih =>
    by_cases hc : p c = true
    · rw [List.dropWhile_cons_of_pos hc] at h
      exact ih h
    · rw [List.dropWhile_cons_of_neg hc] at h
      injection h with h1 _
      rw [h1] at hc
      exact Bool.eq_false_iff.mpr hc

/-- Accumulator characterisation of the findall scan: the pending run
joins the maximal letter prefix of the rest, is kept when long enough
and rightly flanked, and the scan restarts after the flanking
character. -/
theorem findallAux_acc (cs : List Char) :
    ∀ (prevOk : Bool) (cur : List Char),
      findallAux prevOk cur cs =
        (match cs.dropWhile isAsciiAlpha with
        | [] =>
          if prevOk &&
              decide (3 ≤ cur.length + (cs.takeWhile isAsciiAlpha).length)
          then [cur.reverse ++ cs.takeWhile isAsciiAlpha] else []
        | c2 :: rest2 =>
          (if prevOk &&
                decide (3 ≤ cur.length + (cs.takeWhile isAsciiAlpha).length)
                && !isWordChar c2
           then [cur.reverse ++ cs.takeWhile isAsciiAlpha] else []) ++
            findallAux (!isWordChar c2) [] rest2) := by
  induction cs with
  | nil =>
    intro prevOk cur
    simp [findallAux]
  | cons c rest ih =>
    intro prevOk cur
    by_cases hc : isAsciiAlpha c = true
    · have hstep : findallAux prevOk cur (c :: rest)
          = findallAux prevOk (c :: cur) rest := by
        simp [findallAux, hc]
      rw [hstep, ih prevOk (c :: cur), List.dropWhile_cons_of_pos hc,
        List.takeWhile_cons_of_pos hc]
      have hlen : (c :: cur).length + (rest.takeWhile isAsciiAlpha).length
          = cur.length + (c :: rest.takeWhile isAsciiAlpha).length := by
        simp
        omega
      have happ : (c :: cur).reverse ++ rest.takeWhile isAsciiAlpha
          = cur.reverse ++ c :: rest.takeWhile isAsciiAlpha := by
        simp
      simp only [hlen, happ]
    · rw [List.dropWhile_cons_of_neg hc, List.takeWhile_cons_of_neg hc]
      simp only [findallAux, hc]
      cases hp : prevOk with
      | false => simp
      | true =>
        by_cases h3 : 3 ≤ cur.length
        · by_cases hw : isWordChar c = true
          · simp [h3, hw]
          · simp [h3, hw]
        · simp [h3]

/-- The findall scan computes the word-boundary-flanked maximal
letter runs of length at least three: the fuelled spec-side run
extraction agrees with it whenever the fuel covers the text. -/
theorem findall_eq_wordRunsF :
    ∀ (fuel : Nat) (cs : List Char), cs.length ≤ fuel →
      ∀ prevOk, findallAux prevOk [] cs = wordRunsF fuel prevOk cs := by
  intro fuel
  induction fuel using Nat.strong_induction_on with
  | _ fuel ih =>
    intro cs hlen prevOk
    match fuel, cs with
    | fuel, [] => cases fuel <;> simp [findallAux, wordRunsF]
    | 0, c :: rest => simp at hlen
    | f + 1, c :: rest =>
      by_cases hc : isAsciiAlpha c = true
      · rw [findallAux_acc (c :: rest) prevOk []]
        cases h2 : (c :: rest).dropWhile isAsciiAlpha with
        | nil =>
          simp [wordRunsF, hc, h2, rightOk, wordRunsF_nil]
        | cons c2 rest2 =>
          have hc2 : isAsciiAlpha c2 = false := dropWhileHeadFalse _ _ _ _ h2
          have hlen2 : rest2.length + 1 ≤ rest.length := by
            have h3 : (c :: rest).dropWhile isAsciiAlpha
                = rest.dropWhile isAsciiAlpha := List.dropWhile_cons_of_pos hc
            have h4 := lengthDropWhileLe isAsciiAlpha rest
            rw [h3] at h2
            rw [h2] at h4
            simpa using h4
          have hrest : rest.length ≤ f := by
            simpa using hlen
          obtain ⟨f2, rfl⟩ : ∃ f2, f = f2 + 1 := ⟨f - 1, by omega⟩
          have hih : findallAux (!isWordChar c2) [] rest2
              = wordRunsF f2 (!isWordChar c2) rest2 :=
            ih f2 (by omega) rest2 (by omega) (!isWordChar c2)
          simp [wordRunsF, hc, hc2, h2, rightOk, hih]
      · have hstep : findallAux prevOk [] (c :: rest)
            = findallAux (!isWordChar c) [] rest := by
          simp [findallAux, hc]
        have hrest : rest.length ≤ f := by
          simpa using hlen
        rw [hstep, ih f (by omega) rest hrest (!isWordChar c)]
        simp [wordRunsF, hc]

instance : IsTotal String lowerLe :=
  ⟨fun a b => le_total (toLowerStr a) (toLowerStr b)⟩

instance : IsTrans String lowerLe :=
  ⟨fun _ _ _ hab hbc => le_trans hab hbc⟩

/-! ## Claim theorems -/

/-- Claim C1 (code bug record): the source classifier actually returns
true on all three of the inputs Remote-Canada, Remote-USA and
Remote-APAC, because the token remote is in the allow list and the
allow loop runs before the deny loop.  The claim and the test files of
the repository demand false, true, false. -/
theorem c1_code_eval :
    in_usa "Remote, Canada" = true ∧ in_usa "Remote, USA" = true ∧
      in_usa "Remote, APAC" = true := by decide

/-- Claim C2: allow-first precedence.  Any location whose token list
contains a token of the allow set classifies true, whatever the other
tokens are; in particular the multi-country example with both allow
and deny tokens classifies true. -/
theorem c2_allow_first :
    (∀ loc : String, (∃ w ∈ locationWords loc, w ∈ allow_locales) →
        in_usa loc = true) ∧
      in_usa "Toronto, CAN, San Francisco, CA & Remote - US & Canada" = true := by
  constructor
  · intro loc h
    obtain ⟨w, hw, hwa⟩ := h
    have hany : (locationWords loc).any
        (fun w => decide (w ∈ allow_locales)) = true :=
      List.any_eq_true.mpr ⟨w, hw, by simpa using hwa⟩
    simp [in_usa, hany]
  · decide

/-- Witness for claim C2 at a concrete location with an allow token. -/
theorem c2_allow_first_witness :
    in_usa "Naperville, IL or Remote" = true :=
  c2_allow_first.1 "Naperville, IL or Remote" (by decide)

/-- Claim C5: with no allow token present, a deny token forces false
and the absence of any known token defaults to true. -/
theorem c5_no_allow :
    ∀ loc : String, (∀ w ∈ locationWords loc, w ∉ allow_locales) →
      ((∃ w ∈ locationWords loc, w ∈ exclude_locales) → in_usa loc = false) ∧
      ((∀ w ∈ locationWords loc, w ∉ exclude_locales) → in_usa loc = true) := by
  intro loc hallow
  have hAllowAny : (locationWords loc).any
      (fun w => decide (w ∈ allow_locales)) = false := by
    rw [Bool.eq_false_iff]
    intro hcontra
    obtain ⟨w, hw, hwa⟩ := List.any_eq_true.mp hcontra
    exact hallow w hw (by simpa using hwa)
  constructor
  · intro h
    obtain ⟨w, hw, hwe⟩ := h
    have hExclAny : (locationWords loc).any
        (fun w => decide (w ∈ exclude_locales)) = true :=
      List.any_eq_true.mpr ⟨w, hw, by simpa using hwe⟩
    simp [in_usa, hAllowAny, hExclAny]
  · intro h
    have hExclAny : (locationWords loc).any
        (fun w => decide (w ∈ exclude_locales)) = false := by
      rw [Bool.eq_false_iff]
      intro hcontra
      obtain ⟨w, hw, hwe⟩ := List.any_eq_true.mp hcontra
      exact h w hw (by simpa using hwe)
    simp [in_usa, hAllowAny, hExclAny]

/-- Witness for claim C5: a denied location, an unknown location and
the empty location, with the hypotheses checked concretely. -/
theorem c5_no_allow_witness :
    in_usa "Germany - Frankfurt" = false ∧ in_usa "Neverheardofit" = true ∧
      in_usa "" = true :=
  ⟨(c5_no_allow "Germany - Frankfurt" (by decide)).1 (by decide),
   (c5_no_allow "Neverheardofit" (by decide)).2 (by decide),
   (c5_no_allow "" (by decide)).2 (by decide)⟩

/-- Claim C10: the classifier depends only on the two membership
tests against the allow and deny lists, so the place-name list plays
no role: two locations with the same membership outcomes classify the
same way; the tokens chicago and il are place names outside the allow
list, and a place name combined with a deny token classifies false. -/
theorem c10_membership_only :
    (∀ l1 l2 : String,
        (locationWords l1).any (fun w => decide (w ∈ allow_locales)) =
          (locationWords l2).any (fun w => decide (w ∈ allow_locales)) →
        (locationWords l1).any (fun w => decide (w ∈ exclude_locales)) =
          (locationWords l2).any (fun w => decide (w ∈ exclude_locales)) →
        in_usa l1 = in_usa l2) ∧
      "chicago" ∈ states_and_cities ∧ "chicago" ∉ allow_locales ∧
      "il" ∈ states_and_cities ∧ "il" ∉ allow_locales ∧
      in_usa "Chicago & Germany" = false := by
  refine ⟨?_, by decide, by decide, by decide, by decide, by decide⟩
  intro l1 l2 h1 h2
  simp only [in_usa, h1, h2]

/-- Witness for claim C10: two locations agreeing on both membership
tests classify identically. -/
theorem c10_membership_only_witness :
    in_usa "Chicago & Germany" = in_usa "France" :=
  c10_membership_only.1 "Chicago & Germany" "France" (by decide) (by decide)

/-- Claim C3: the labeled salary range wins over an earlier unlabeled
dollar figure: a description mentioning a hundred-million funding
amount and later a labeled range of one hundred sixty to one hundred
eighty thousand dollars extracts exactly that range. -/
theorem c3_label_required :
    extract_salary
        ("HackerRank is a Y Combinator alumnus backed by tier-one Silicon " ++
         "Valley VCs with total funding of over $100 million. We offer a " ++
         "comprehensive total rewards package. Current base salary " ++
         "range: ($160,000 - $180,000). The exact salary may vary.") =
      (some 160000, some 180000) := by decide

/-- Claim C4: the extractor dispatches on the range pattern first,
then the single pattern, then gives up; the two quoted examples
behave as stated. -/
theorem c4_salary_dispatch :
    (∀ (d : String) (a b : Nat), rangeSearch d.data = some (a, b) →
        extract_salary d = (some a, some b)) ∧
      (∀ (d : String) (a : Nat), rangeSearch d.data = none →
        singleSearch d.data = some a → extract_salary d = (some a, none)) ∧
      (∀ d : String, rangeSearch d.data = none → singleSearch d.data = none →
        extract_salary d = (none, none)) ∧
      extract_salary "The expected salary for this position is $120,000 USD." =
        (some 120000, none) ∧
      extract_salary "This is an equity-only position." = (none, none) := by
  refine ⟨?_, ?_, ?_, by decide, by decide⟩
  · intro d a b h
    simp [extract_salary, h]
  · intro d a h1 h2
    simp [extract_salary, h1, h2]
  · intro d h1 h2
    simp [extract_salary, h1, h2]

/-- Witness for claim C4 at a concrete range description. -/
theorem c4_salary_dispatch_witness :
    extract_salary "Salary: $5,000 - $9,000 total" = (some 5000, some 9000) :=
  c4_salary_dispatch.1 "Salary: $5,000 - $9,000 total" 5000 9000 (by decide)

/-- Claim C8 counterexample: a description listing the larger labeled
amount first yields a pair with the first component above the second,
so the ordered-pair invariant fails on the code. -/
theorem c8_counterexample :
    extract_salary "Salary range: $200,000 - $100,000" =
        (some 200000, some 100000) ∧ ¬ (200000 ≤ 100000) := by decide

/-- Claim C8 as amended: the two returned values are exactly the two
amounts the range search finds, in their order of appearance in the
text; no ordering between them is guaranteed. -/
theorem c8_amended_textual_order :
    ∀ (d : String) (a b : Nat), extract_salary d = (some a, some b) →
      rangeSearch d.data = some (a, b) := by
  intro d a b h
  unfold extract_salary at h
  cases hr : rangeSearch d.data with
  | some p =>
    obtain ⟨x, y⟩ := p
    rw [hr] at h
    simp only [Prod.mk.injEq, Option.some.injEq] at h
    rw [h.1, h.2]
  | none =>
    rw [hr] at h
    cases hs : singleSearch d.data with
    | some a1 => rw [hs] at h; simp at h
    | none => rw [hs] at h; simp at h

/-- Witness for the amended claim C8 at a concrete description. -/
theorem c8_amended_witness :
    rangeSearch ("Range: $3,000 - $4,500").data = some (3000, 4500) :=
  c8_amended_textual_order "Range: $3,000 - $4,500" 3000 4500 (by decide)

/-- Claim C9: the company-size parser expands the K suffix by a
factor of a thousand in ranges and in the open-ended plus form. -/
theorem c9_company_size :
    parse_company_size "1K to 5K Employees" = "1000-5000" ∧
      parse_company_size "10K+ Employees" = "10000+" := by decide

/-- Claim C6: the preference score is the sum of the weights of the
phrases of the table that match the title or the description with
word boundaries, each phrase counted once, and the hit list is
exactly those phrases in declaration order; the phrase Java does not
match inside the word JavaScript, and a phrase present in both inputs
and repeatedly is still counted once. -/
theorem c6_scorer :
    (∀ title description : String,
        score_job title description =
          (((preferences.filter
              (fun kv => prefMatches kv.1 title description)).map Prod.snd).sum,
           (preferences.filter
              (fun kv => prefMatches kv.1 title description)).map Prod.fst)) ∧
      score_job "" "JavaScript" = (0, []) ∧
      score_job "Python" "python remote python" = (20, ["Remote", "Python"]) := by
  refine ⟨?_, by decide, by decide⟩
  intro t d
  have h := scoreFold_eq (fun kv => prefMatches kv.1 t d) preferences 0 []
  simpa [score_job] using h

/-- Claim C7 counterexample: on the text xqz9 the claim demands the
maximal letter run xqz (not a dictionary word), but the extractor
returns nothing, because the token regex requires a word boundary and
the digit after the run is a word character. -/
theorem c7_counterexample :
    keywordsSpecOrig [] "xqz9" = ["xqz"] ∧
      extract_keywords [] "xqz9" = [] := by decide

/-- Claim C7 as amended: for every dictionary and text, keyword
extraction returns exactly the maximal runs of three or more ASCII
letters whose neighbouring characters are absent or non-word (so runs
flanked by digits or underscores are dropped), filtered by the
dictionary, first-seen casing kept per lowercase form, sorted
ascending by lowercase form; and the result is always sorted in that
order. -/
theorem c7_keywords_amended :
    (∀ (dict : List String) (text : String),
        extract_keywords dict text = keywordsSpecAmended dict text) ∧
      ∀ (dict : List String) (text : String),
        (extract_keywords dict text).Sorted lowerLe := by
  constructor
  · intro dict text
    unfold extract_keywords keywordsSpecAmended findallWords
    rw [findall_eq_wordRunsF text.data.length text.data (le_refl _) true]
  · intro dict text
    exact List.sorted_insertionSort lowerLe _

end JobScraper
